import Mathlib

/-!
Verification development for the e18e reporter's dependency-graph
construction and duplicate/conflict analysis engine.

The TypeScript sources are shallowly embedded: JavaScript objects become
structures, `Map`/`Set` (whose iteration follows first-insertion order)
become lists deduplicated on first occurrence, asynchronous I/O boundaries
(filesystem reads, registry fetches) become explicit function parameters or
association lists, and the unbounded recursion of the tree builder is
indexed by fuel (`none` = the given fuel was exhausted before the traversal
finished).
-/

namespace Reporter

/-- First-occurrence deduplication with an accumulator of already-seen
keys. -/
def dedupFirstAux (seen : List String) : List String → List String
  | [] => []
  | x :: xs =>
    if x ∈ seen then dedupFirstAux seen xs
    else x :: dedupFirstAux (x :: seen) xs

/-- First-occurrence deduplication: the order in which a JavaScript `Map`
or `Set` iterates its keys. -/
def dedupFirst (l : List String) : List String :=
  dedupFirstAux [] l

/-- Helper for `String.prototype.includes`: substring search over the
character list. -/
def listHasInfix : List Char → List Char → Bool
  | [], needle => needle.isEmpty
  | h :: t, needle => needle.isPrefixOf (h :: t) || listHasInfix t needle

/-- `haystack.includes(needle)` (JavaScript substring containment). -/
def strContains (s sub : String) : Bool :=
  listHasInfix s.toList sub.toList

/-- Embeds `DependencyNode` from `types.ts` / `dependency-tree.ts`:
name, resolved version string, slash-delimited tree path, optional parent
package name, depth, absolute manifest path. -/
structure DependencyNode where
  name : String
  version : String
  path : String
  parent : Option String := none
  depth : Nat
  packagePath : String
deriving DecidableEq, Repr

/-- Embeds `PackageJsonLike`: the fields of a parsed manifest that the
tree builder reads.  Dependency maps are association lists in JavaScript
object-key insertion order. -/
structure PackageJsonLike where
  name : String
  version : String
  dependencies : List (String × String) := []
  devDependencies : List (String × String) := []
deriving DecidableEq, Repr

inductive Severity where
  | exact
  | conflict
  | resolvable
deriving DecidableEq, Repr

/-- Embeds the `DuplicateDependency` shape produced by
`DuplicateDetector.analyzeDuplicate`. -/
structure DuplicateDependency where
  name : String
  versions : List DependencyNode
  severity : Severity
  potentialSavings : Nat
  suggestions : List String
deriving DecidableEq, Repr

/-- `DuplicateDetector.generateSuggestions` (dependency-tree.ts 221-250).
`versionCounts` is a `Map` built in first-occurrence order;
`Array.prototype.sort` is stable (ES2019), so sorting by count descending
and taking the head picks the maximal-count version whose first occurrence
comes earliest — embedded here as a fold that replaces the champion only on
a strictly greater count. -/
def generateSuggestions (nodes : List DependencyNode) : List String :=
  let versionKeys := dedupFirst (nodes.map (·.version))
  let versionCounts := versionKeys.map
    (fun v => (v, (nodes.filter (fun n => n.version = v)).length))
  let mostCommonVersion := versionCounts.foldl
    (fun best kv =>
      match best with
      | none => some kv
      | some b => if kv.2 > b.2 then some kv else some b)
    none
  let s1 : List String :=
    match mostCommonVersion with
    | some (v, c) =>
      if c > 1 then
        ["Consider standardizing on version " ++ v ++ " (used by " ++
          toString c ++ " dependencies)"]
      else []
    | none => []
  let uniqueParents := dedupFirst (nodes.filterMap (·.parent))
  let s2 : List String :=
    if uniqueParents.length > 1 then
      ["Check if newer versions of consuming packages (" ++
        String.intercalate ", " uniqueParents ++
        ") would resolve this duplicate"]
    else []
  s1 ++ s2

/-- `DuplicateDetector.calculatePotentialSavings` (dependency-tree.ts
212-216). -/
def calculatePotentialSavings (nodes : List DependencyNode) : Nat :=
  nodes.length - 1

/-- `DuplicateDetector.analyzeDuplicate` (dependency-tree.ts 179-207). -/
def analyzeDuplicate (packageName : String) (nodes : List DependencyNode) :
    Option DuplicateDependency :=
  if packageName = "root" || nodes.any (fun n => n.name = "root") then
    none
  else
    let uniqueVersions := dedupFirst (nodes.map (·.version))
    let severity : Severity :=
      if uniqueVersions.length = 1 then .exact else .conflict
    some
      { name := packageName
        versions := nodes
        severity := severity
        potentialSavings := calculatePotentialSavings nodes
        suggestions := generateSuggestions nodes }

/-- The array a `Map<string, DependencyNode[]>` built by pushing each node
onto its name's bucket holds for a given name: the nodes with that name in
input order. -/
def groupOf (nodes : List DependencyNode) (n : String) : List DependencyNode :=
  nodes.filter (fun m => m.name = n)

/-- `DuplicateDetector.detectDuplicates` (dependency-tree.ts 151-174):
group by name (`Map` iteration = first-occurrence order of names), keep
groups of size ≥ 2, analyze each. -/
def detectDuplicates (dependencyNodes : List DependencyNode) :
    List DuplicateDependency :=
  (dedupFirst (dependencyNodes.map (·.name))).filterMap
    (fun n =>
      let nodes := groupOf dependencyNodes n
      if nodes.length > 1 then analyzeDuplicate n nodes else none)

theorem mem_dedupFirstAux (a : String) (l seen : List String) :
    a ∈ dedupFirstAux seen l ↔ a ∈ l ∧ a ∉ seen := by
  induction l generalizing seen with
  | nil => simp [dedupFirstAux]
  | cons x xs ih =>
    rw [dedupFirstAux]
    by_cases hx : x ∈ seen
    · rw [if_pos hx, ih]
      constructor
      · rintro ⟨h1, h2⟩
        exact ⟨List.mem_cons_of_mem x h1, h2⟩
      · rintro ⟨h1, h2⟩
        rcases List.mem_cons.mp h1 with rfl | h1
        · exact absurd hx h2
        · exact ⟨h1, h2⟩
    · rw [if_neg hx]
      constructor
      · intro h
        rcases List.mem_cons.mp h with rfl | h
        · exact ⟨List.mem_cons_self _ _, hx⟩
        · rcases (ih _).mp h with ⟨h1, h2⟩
          exact ⟨List.mem_cons_of_mem _ h1,
            fun hs => h2 (List.mem_cons_of_mem _ hs)⟩
      · rintro ⟨h1, h2⟩
        rcases List.mem_cons.mp h1 with rfl | h1
        · exact List.mem_cons_self _ _
        · by_cases hax : a = x
          · subst hax
            exact List.mem_cons_self _ _
          · refine List.mem_cons_of_mem _ ((ih _).mpr ⟨h1, fun hs => ?_⟩)
            rcases List.mem_cons.mp hs with h' | h'
            · exact hax h'
            · exact h2 h'

theorem mem_dedupFirst (a : String) (l : List String) :
    a ∈ dedupFirst l ↔ a ∈ l := by
  rw [dedupFirst, mem_dedupFirstAux]
  simp

theorem dedupFirstAux_eq_nil (l seen : List String) :
    dedupFirstAux seen l = [] ↔ ∀ x ∈ l, x ∈ seen := by
  induction l generalizing seen with
  | nil => simp [dedupFirstAux]
  | cons x xs ih =>
    by_cases hx : x ∈ seen
    · rw [dedupFirstAux, if_pos hx, ih]
      simp [hx]
    · rw [dedupFirstAux, if_neg hx]
      constructor
      · intro h
        exact absurd h (List.cons_ne_nil _ _)
      · intro h
        exact absurd (h x (List.mem_cons_self x xs)) hx

theorem dedupFirst_eq_nil (l : List String) :
    dedupFirst l = [] ↔ l = [] := by
  cases l with
  | nil => simp [dedupFirst, dedupFirstAux]
  | cons x xs =>
    rw [dedupFirst, dedupFirstAux]
    simp

theorem dedupFirst_length_one (l : List String) :
    (dedupFirst l).length = 1 ↔ l ≠ [] ∧ ∀ x ∈ l, ∀ y ∈ l, x = y := by
  cases l with
  | nil => simp [dedupFirst, dedupFirstAux]
  | cons x xs =>
    rw [dedupFirst, dedupFirstAux, if_neg (List.not_mem_nil x)]
    simp only [List.length_cons, Nat.add_left_eq_self,
      List.length_eq_zero, dedupFirstAux_eq_nil, List.mem_singleton]
    constructor
    · intro h
      refine ⟨by simp, ?_⟩
      have key : ∀ c ∈ x :: xs, c = x := by
        intro c hc
        rcases List.mem_cons.mp hc with h1 | h1
        · exact h1
        · exact h c h1
      intro a ha b hb
      rw [key a ha, key b hb]
    · intro ⟨_, h⟩ a ha
      exact h a (List.mem_cons_of_mem x ha) x (List.mem_cons_self x xs)

theorem mem_detectDuplicates {nodes : List DependencyNode}
    {d : DuplicateDependency} :
    d ∈ detectDuplicates nodes ↔
      ∃ n ∈ nodes.map (·.name), 1 < (groupOf nodes n).length ∧
        analyzeDuplicate n (groupOf nodes n) = some d := by
  unfold detectDuplicates
  rw [List.mem_filterMap]
  constructor
  · rintro ⟨n, hn, hf⟩
    rw [mem_dedupFirst] at hn
    refine ⟨n, hn, ?_⟩
    by_cases hl : 1 < (groupOf nodes n).length
    · rw [if_pos hl] at hf
      exact ⟨hl, hf⟩
    · rw [if_neg hl] at hf
      exact absurd hf (by simp)
  · rintro ⟨n, hn, hl, hf⟩
    refine ⟨n, (mem_dedupFirst n _).mpr hn, ?_⟩
    rw [if_pos hl]
    exact hf

theorem analyzeDuplicate_eq_some {n : String} {g : List DependencyNode}
    {d : DuplicateDependency} (h : analyzeDuplicate n g = some d) :
    d.name = n ∧ d.versions = g ∧ n ≠ "root" ∧
      (d.severity = .exact ∨ d.severity = .conflict) ∧
      (d.severity = .exact ↔ (dedupFirst (g.map (·.version))).length = 1) := by
  unfold analyzeDuplicate at h
  split at h
  · exact absurd h (by simp)
  · rename_i hc
    simp only [Bool.or_eq_true, decide_eq_true_eq, List.any_eq_true,
      not_or, not_exists] at hc
    injection h with h
    subst h
    refine ⟨rfl, rfl, hc.1, ?_, ?_⟩
    · by_cases hu : (dedupFirst (g.map (·.version))).length = 1
      · left; simp [hu]
      · right; simp [hu]
    · by_cases hu : (dedupFirst (g.map (·.version))).length = 1
      · simp [hu]
      · simp [hu]

theorem groupOf_name {nodes : List DependencyNode} {n : String}
    {m : DependencyNode} (h : m ∈ groupOf nodes n) : m ∈ nodes ∧ m.name = n := by
  unfold groupOf at h
  rw [List.mem_filter] at h
  exact ⟨h.1, by simpa using h.2⟩

/-- C1 (amended): for every package name **other than the literal string
`"root"`**, `detectDuplicates` produces a `DuplicateDependency` for that
name iff the name has at least 2 node occurrences in the input, and such a
group's severity is `exact` iff every occurrence carries the identical
version string (otherwise `conflict`).  The unamended claim fails for the
name `"root"`, which `analyzeDuplicate` filters out unconditionally. -/
theorem C1_detectDuplicates_spec (nodes : List DependencyNode) (n : String)
    (hn : n ≠ "root") :
    ((∃ d ∈ detectDuplicates nodes, d.name = n) ↔
        2 ≤ (groupOf nodes n).length) ∧
    (∀ d ∈ detectDuplicates nodes, d.name = n →
      d.versions = groupOf nodes n ∧
      (d.severity = .exact ∨ d.severity = .conflict) ∧
      (d.severity = .exact ↔
        ∀ m₁ ∈ groupOf nodes n, ∀ m₂ ∈ groupOf nodes n,
          m₁.version = m₂.version)) := by
  have hmemname : ∀ d ∈ detectDuplicates nodes, d.name = n →
      1 < (groupOf nodes n).length ∧
      analyzeDuplicate n (groupOf nodes n) = some d := by
    intro d hd hdn
    rcases mem_detectDuplicates.mp hd with ⟨m, _, hl, hf⟩
    have := (analyzeDuplicate_eq_some hf).1
    rw [hdn] at this
    subst this
    exact ⟨hl, hf⟩
  constructor
  · constructor
    · rintro ⟨d, hd, hdn⟩
      exact (hmemname d hd hdn).1
    · intro hl
      have hne : groupOf nodes n ≠ [] := by
        intro h
        rw [h] at hl
        simp at hl
      rcases List.exists_mem_of_ne_nil _ hne with ⟨m, hm⟩
      have hmn := groupOf_name hm
      have hguard :
          ¬((decide (n = "root") ||
            (groupOf nodes n).any fun m => decide (m.name = "root")) = true) := by
        simp only [Bool.or_eq_true, decide_eq_true_eq, List.any_eq_true,
          not_or, not_exists]
        refine ⟨hn, ?_⟩
        intro x hx
        have hxn := (groupOf_name hx.1).2
        rw [hxn] at hx
        exact hn hx.2
      have hsome : ∃ d, analyzeDuplicate n (groupOf nodes n) = some d := by
        unfold analyzeDuplicate
        rw [if_neg hguard]
        exact ⟨_, rfl⟩
      rcases hsome with ⟨d, hd⟩
      refine ⟨d, mem_detectDuplicates.mpr
        ⟨n, ?_, by omega, hd⟩, (analyzeDuplicate_eq_some hd).1⟩
      exact List.mem_map.mpr ⟨m, hmn.1, hmn.2⟩
  · intro d hd hdn
    rcases hmemname d hd hdn with ⟨hl, hf⟩
    rcases analyzeDuplicate_eq_some hf with ⟨_, hver, _, hsev2, hsev⟩
    refine ⟨hver, hsev2, ?_⟩
    rw [hsev, dedupFirst_length_one]
    have hne : (groupOf nodes n).map (·.version) ≠ [] := by
      intro h
      rw [List.map_eq_nil_iff] at h
      rw [h] at hl
      simp at hl
    constructor
    · rintro ⟨_, h⟩ m₁ hm₁ m₂ hm₂
      exact h _ (List.mem_map.mpr ⟨m₁, hm₁, rfl⟩) _
        (List.mem_map.mpr ⟨m₂, hm₂, rfl⟩)
    · intro h
      refine ⟨hne, ?_⟩
      intro x hx y hy
      rcases List.mem_map.mp hx with ⟨m₁, hm₁, rfl⟩
      rcases List.mem_map.mp hy with ⟨m₂, hm₂, rfl⟩
      exact h m₁ hm₁ m₂ hm₂

/-- Two distinct occurrences of a package literally named `"root"`. -/
def rootDupA : DependencyNode :=
  { name := "root", version := "1.0.0", path := "root > root",
    parent := some "app", depth := 1, packagePath := "/r/node_modules/root/package.json" }

def rootDupB : DependencyNode :=
  { name := "root", version := "1.0.0", path := "root > x > root",
    parent := some "x", depth := 2, packagePath := "/r/node_modules/root/package.json" }

/-- C1 counterexample: the name `"root"` has 2 node occurrences, yet
`detectDuplicates` produces no group for it — refuting the claim's
"if and only if" as stated for every list and every name. -/
theorem C1_counterexample :
    2 ≤ (groupOf [rootDupA, rootDupB] "root").length ∧
      detectDuplicates [rootDupA, rootDupB] = [] := by
  constructor
  · decide
  · decide

/-- C1 witness: instantiates `C1_detectDuplicates_spec` on a concrete
two-node group of `lodash`. -/
theorem C1_witness :
    ("lodash" : String) ≠ "root" ∧
    (((∃ d ∈ detectDuplicates
          [{ name := "lodash", version := "4.17.21", path := "root > a > lodash",
             parent := some "a", depth := 2, packagePath := "/m1" },
           { name := "lodash", version := "4.17.21", path := "root > b > lodash",
             parent := some "b", depth := 2, packagePath := "/m2" }], d.name = "lodash") ↔
        2 ≤ (groupOf
          [{ name := "lodash", version := "4.17.21", path := "root > a > lodash",
             parent := some "a", depth := 2, packagePath := "/m1" },
           { name := "lodash", version := "4.17.21", path := "root > b > lodash",
             parent := some "b", depth := 2, packagePath := "/m2" }] "lodash").length) ∧
      True) := by
  refine ⟨by decide, ?_, trivial⟩
  exact (C1_detectDuplicates_spec _ "lodash" (by decide)).1

theorem detectDuplicates_name_ne_root {nodes : List DependencyNode}
    {d : DuplicateDependency} (hd : d ∈ detectDuplicates nodes) :
    d.name ≠ "root" := by
  rcases mem_detectDuplicates.mp hd with ⟨n, _, _, hf⟩
  rcases analyzeDuplicate_eq_some hf with ⟨hname, _, hroot, _, _⟩
  rw [hname]
  exact hroot

/-- C4 (amended): the **set of duplicated names** and each group's
**severity** are order-independent: for permuted inputs,
`detectDuplicates` reports a group for exactly the same names, with equal
severities.  The unamended claim fails for the suggestion strings: ties
for the most common version are broken by first occurrence in the input
(stable sort), not by lowest version string, and parent names are listed
in input order (see the counterexample). -/
theorem C4_detect_perm_invariant (nodes nodes' : List DependencyNode)
    (hp : nodes.Perm nodes') :
    (∀ n, (∃ d ∈ detectDuplicates nodes, d.name = n) ↔
          (∃ d ∈ detectDuplicates nodes', d.name = n)) ∧
    (∀ d ∈ detectDuplicates nodes, ∀ d' ∈ detectDuplicates nodes',
      d.name = d'.name → d.severity = d'.severity) := by
  have hlen : ∀ n, (groupOf nodes n).length = (groupOf nodes' n).length :=
    fun n => (hp.filter _).length_eq
  have hmem : ∀ n (m : DependencyNode),
      m ∈ groupOf nodes n ↔ m ∈ groupOf nodes' n :=
    fun n m => (hp.filter _).mem_iff
  constructor
  · intro n
    by_cases hn : n = "root"
    · subst hn
      constructor
      · rintro ⟨d, hd, hdn⟩
        exact absurd hdn (detectDuplicates_name_ne_root hd)
      · rintro ⟨d, hd, hdn⟩
        exact absurd hdn (detectDuplicates_name_ne_root hd)
    · rw [(C1_detectDuplicates_spec nodes n hn).1,
        (C1_detectDuplicates_spec nodes' n hn).1, hlen n]
  · intro d hd d' hd' hnames
    have hn : d.name ≠ "root" := detectDuplicates_name_ne_root hd
    have h1 := ((C1_detectDuplicates_spec nodes d.name hn).2 d hd rfl).2
    have h2 := ((C1_detectDuplicates_spec nodes' d.name hn).2 d' hd'
      hnames.symm).2
    have hiff : (∀ m₁ ∈ groupOf nodes d.name, ∀ m₂ ∈ groupOf nodes d.name,
        m₁.version = m₂.version) ↔
        (∀ m₁ ∈ groupOf nodes' d.name, ∀ m₂ ∈ groupOf nodes' d.name,
          m₁.version = m₂.version) := by
      constructor
      · intro h m₁ hm₁ m₂ hm₂
        exact h m₁ ((hmem _ _).mpr hm₁) m₂ ((hmem _ _).mpr hm₂)
      · intro h m₁ hm₁ m₂ hm₂
        exact h m₁ ((hmem _ _).mp hm₁) m₂ ((hmem _ _).mp hm₂)
    rcases h1.1 with he | he <;> rcases h2.1 with he' | he'
    · rw [he, he']
    · have hx := h2.2.mpr (hiff.mp (h1.2.mp he))
      rw [he'] at hx
      simp at hx
    · have hx := h1.2.mpr (hiff.mpr (h2.2.mp he'))
      rw [he] at hx
      simp at hx
    · rw [he, he']

def c4n1 : DependencyNode :=
  { name := "x", version := "2.0.0", path := "root > a > x",
    parent := some "a", depth := 2, packagePath := "/m1" }

def c4n2 : DependencyNode :=
  { name := "x", version := "2.0.0", path := "root > b > x",
    parent := some "a", depth := 2, packagePath := "/m2" }

def c4n3 : DependencyNode :=
  { name := "x", version := "1.0.0", path := "root > c > x",
    parent := some "a", depth := 2, packagePath := "/m3" }

def c4n4 : DependencyNode :=
  { name := "x", version := "1.0.0", path := "root > d > x",
    parent := some "a", depth := 2, packagePath := "/m4" }

/-- C4 counterexample: permuting the node list flips the "most common
version" tie between `2.0.0` and `1.0.0` — the suggestion text follows the
first occurrence in the input, not the lowest version string, so the claim
as stated is false. -/
theorem C4_counterexample :
    ([c4n1, c4n2, c4n3, c4n4] : List DependencyNode).Perm
      [c4n1, c4n2, c4n3, c4n4].reverse ∧
    (detectDuplicates [c4n1, c4n2, c4n3, c4n4]).map (·.suggestions) =
      [["Consider standardizing on version 2.0.0 (used by 2 dependencies)"]] ∧
    (detectDuplicates [c4n1, c4n2, c4n3, c4n4].reverse).map (·.suggestions) =
      [["Consider standardizing on version 1.0.0 (used by 2 dependencies)"]] := by
  refine ⟨(List.reverse_perm _).symm, ?_, ?_⟩
  · decide
  · decide

/-- C4 witness: instantiates `C4_detect_perm_invariant` on a concrete
two-element permutation. -/
theorem C4_witness :
    ((∀ n, (∃ d ∈ detectDuplicates [c4n1, c4n3], d.name = n) ↔
          (∃ d ∈ detectDuplicates [c4n3, c4n1], d.name = n)) ∧
    (∀ d ∈ detectDuplicates [c4n1, c4n3], ∀ d' ∈ detectDuplicates [c4n3, c4n1],
      d.name = d'.name → d.severity = d'.severity)) :=
  C4_detect_perm_invariant [c4n1, c4n3] [c4n3, c4n1] (List.Perm.swap _ _ _)

/-! ## Semantic-version model

`npm-registry.ts` relies on the `semver` package.  The subset exercised by
the suggestion engine is embedded here: canonical `major.minor.patch`
release triples (node-semver's prerelease/build tags and range sugar
beyond `*`, `^` and exact pins play no role in the embedded call sites;
strings outside the embedded grammar make `semver.parse` return `null`,
and version-position arguments that are not plain triples make
`semver.satisfies`/`semver.gt` reject, which the embedding mirrors by
returning `false`). -/

structure SemVer where
  major : Nat
  minor : Nat
  patch : Nat
deriving DecidableEq, Repr

/-- Splitting a character list on a separator, with
`String.prototype.split` semantics. -/
def splitOnChar (sep : Char) : List Char → List (List Char)
  | [] => [[]]
  | c :: rest =>
    let r := splitOnChar sep rest
    if c = sep then [] :: r
    else
      match r with
      | [] => [[c]]
      | h :: t => (c :: h) :: t

/-- A nonempty all-digit character run, as a number. -/
def charsToNat? (l : List Char) : Option Nat :=
  if l ≠ [] ∧ l.all (·.isDigit) then
    some (l.foldl (fun n c => n * 10 + (c.toNat - '0'.toNat)) 0)
  else none

def semverParseChars (l : List Char) : Option SemVer :=
  match splitOnChar '.' l with
  | [a, b, c] =>
    match charsToNat? a, charsToNat? b, charsToNat? c with
    | some x, some y, some z => some ⟨x, y, z⟩
    | _, _, _ => none
  | _ => none

def semverParse (s : String) : Option SemVer :=
  semverParseChars s.toList

/-- `SemVer.prototype.version`: the canonical rendering of the triple. -/
def render (v : SemVer) : String :=
  toString v.major ++ "." ++ toString v.minor ++ "." ++ toString v.patch

/-- Strict lexicographic precedence (`semver.lt` on release triples). -/
def semverLtB (a b : SemVer) : Bool :=
  a.major < b.major ||
    (a.major = b.major &&
      (a.minor < b.minor || (a.minor = b.minor && a.patch < b.patch)))

/-- `semver.gt` on two version strings; the source throws on a
non-version argument, which never happens on the canonical inputs
considered here — the embedding returns `false` there. -/
def semverGtStr (a b : String) : Bool :=
  match semverParse a, semverParse b with
  | some x, some y => semverLtB y x
  | _, _ => false

/-- Caret-range containment for release triples (`^a.b.c`). -/
def caretSat (base v : SemVer) : Bool :=
  if base.major > 0 then
    v.major = base.major && !semverLtB v base
  else if base.minor > 0 then
    v.major = 0 && v.minor = base.minor && !semverLtB v base
  else
    v = base

/-- `semver.satisfies(version, range)` on the embedded grammar: the
version argument must parse as a plain triple (otherwise `false`, exactly
as node-semver rejects range strings passed in version position); the
range may be `*`, a caret range, or an exact triple. -/
def semverSatisfies (version range : String) : Bool :=
  match semverParse version with
  | none => false
  | some v =>
    if range = "*" then true
    else
      match range.toList with
      | '^' :: rest =>
        match semverParseChars rest with
        | none => false
        | some base => caretSat base v
      | _ =>
        match semverParse range with
        | none => false
        | some base => v = base

/-! ## npm-registry.ts -/

/-- The per-version record of `NpmPackageInfo`. -/
structure VersionMeta where
  version : String
  peerDependencies : Option (List (String × String)) := none
  dependencies : Option (List (String × String)) := none
deriving DecidableEq, Repr

/-- `NpmPackageInfo`: `versions` is a `Record<string, ...>` embedded as an
association list in key-insertion order. -/
structure NpmPackageInfo where
  versions : List (String × VersionMeta)
deriving DecidableEq, Repr

/-- `packageInfo.versions[key]` (JavaScript record access). -/
def lookupVersion (info : NpmPackageInfo) (key : String) : Option VersionMeta :=
  (info.versions.find? (fun p => p.1 = key)).map Prod.snd

/-- `record[key]` on a string-keyed record. -/
def lookupStr (l : List (String × String)) (key : String) : Option String :=
  (l.find? (fun p => p.1 = key)).map Prod.snd

/-- Descending insertion for `sortDesc` (comparator `b.compare(a)`). -/
def insertDesc (v : SemVer) : List SemVer → List SemVer
  | [] => [v]
  | x :: xs => if semverLtB x v then v :: x :: xs else x :: insertDesc v xs

/-- `Object.keys(packageInfo.versions).map(semver.parse).filter(nonNull)
.sort((a, b) => b.compare(a))`. -/
def sortDesc (l : List SemVer) : List SemVer :=
  l.foldr insertDesc []

/-- One entry of the `peerDependencies` `every` check in
`findLatestCompatibleVersion` (npm-registry.ts 63-68). -/
def peerEntryOk (vpd : List (String × String)) (entry : String × String) : Bool :=
  match lookupStr vpd entry.1 with
  | none => true
  | some peerRange => semverSatisfies entry.2 peerRange

/-- `peerDependencies && versionInfo.peerDependencies && every-entry-ok`
(npm-registry.ts 62-68): the gate for offering a different-major version
as a breaking upgrade. -/
def peersOk (peerDependencies : Option (List (String × String)))
    (versionInfo : VersionMeta) : Bool :=
  match peerDependencies, versionInfo.peerDependencies with
  | some pd, some vpd => pd.all (peerEntryOk vpd)
  | _, _ => false

/-- The `for (const version of availableVersions)` loop of
`findLatestCompatibleVersion` (npm-registry.ts 54-73).  When a key of
`packageInfo.versions` is not the canonical rendering of its parse the
source would crash dereferencing `versionInfo`; that state is unreachable
for canonical version keys and the embedding stops with `none` there. -/
def findLoop (cur : SemVer) (info : NpmPackageInfo)
    (peerDependencies : Option (List (String × String))) :
    List SemVer → Option (String × Bool)
  | [] => none
  | v :: rest =>
    if v.major = cur.major then
      some (render v, false)
    else
      match lookupVersion info (render v) with
      | none => none
      | some versionInfo =>
        if peersOk peerDependencies versionInfo then
          some (render v, true)
        else
          findLoop cur info peerDependencies rest

/-- `findLatestCompatibleVersion` (npm-registry.ts 37-76). -/
def findLatestCompatibleVersion (currentVersion : String)
    (packageInfo : NpmPackageInfo)
    (peerDependencies : Option (List (String × String))) :
    Option (String × Bool) :=
  match semverParse currentVersion with
  | none => none
  | some cur =>
    findLoop cur packageInfo peerDependencies
      (sortDesc ((packageInfo.versions.map Prod.fst).filterMap semverParse))

structure DedupImpact where
  sizeReduction : Nat
  dependencyCountReduction : Nat
deriving DecidableEq, Repr

/-- `calculateDeduplicationImpact` (npm-registry.ts 78-107): counts direct
plus peer dependency names across the group's versions and subtracts the
size of their union; `sizeReduction` is the placeholder zero. -/
def calculateDeduplicationImpact (versions : List String)
    (packageInfo : NpmPackageInfo) : DedupImpact :=
  let keysOf : String → List String := fun v =>
    match lookupVersion packageInfo v with
    | none => []
    | some meta =>
      ((meta.dependencies.getD []).map Prod.fst) ++
        ((meta.peerDependencies.getD []).map Prod.fst)
  let totalDeps := (versions.map (fun v => (keysOf v).length)).sum
  let uniqueDeps := dedupFirst (versions.flatMap keysOf)
  { sizeReduction := 0
    dependencyCountReduction := totalDeps - uniqueDeps.length }

/-! ## duplicate-dependencies module (`analyzeDuplicateDependencies`)

The registry-enriched duplicate analysis.  `getPackageInfo` performs a
network fetch returning `null` on any failure; it is passed in as a
function parameter.  A `Map<string, Set<PackageVersion>>` becomes an
association list whose buckets are insertion-ordered lists. -/

structure PackageVersion where
  version : String
  location : String
deriving DecidableEq, Repr

inductive StrategyType where
  | upgrade
  | dedupe
  | hoist
  | resolver
deriving DecidableEq, Repr

inductive Confidence where
  | high
  | medium
  | low
deriving DecidableEq, Repr

structure DeduplicationStrategy where
  type : StrategyType
  description : String
  command : Option String := none
  confidence : Confidence
deriving DecidableEq, Repr

structure SuggestedFix where
  version : String
  reason : String
  breakingChanges : Option Bool := none
  peerDependencies : Option (List (String × String)) := none
deriving DecidableEq, Repr

/-- The `DuplicateDependency` shape of `types.ts` (versions as strings,
with registry-backed optional fields), as built by
`analyzeDuplicateDependencies`. -/
structure EnrichedDuplicate where
  name : String
  versions : List String
  locations : List String
  suggestedFix : Option SuggestedFix := none
  deduplicationImpact : Option DedupImpact := none
  deduplicationStrategies : List DeduplicationStrategy
  relatedDuplicates : Option (List String) := none
deriving DecidableEq, Repr

/-- `packageVersions.get(dep)`. -/
def pvLookup (pv : List (String × List PackageVersion)) (dep : String) :
    Option (List PackageVersion) :=
  (pv.find? (fun p => p.1 = dep)).map Prod.snd

/-- `depVersions && depVersions.size > 1` for a candidate related name. -/
def isDuplicatedName (pv : List (String × List PackageVersion))
    (dep : String) : Bool :=
  match pvLookup pv dep with
  | some depVersions => depVersions.length > 1
  | none => false

/-- Dependency keys recorded for one occurrence's version
(`packageInfo.versions[version.version]?.dependencies || {}`). -/
def depKeysOfVersion (packageInfo : NpmPackageInfo) (v : PackageVersion) :
    List String :=
  match lookupVersion packageInfo v.version with
  | none => []
  | some meta => (meta.dependencies.getD []).map Prod.fst

/-- The related-duplicates accumulation of `analyzeDuplicateDependencies`
(lines 79-88): a `Set` filled, in iteration order, with each occurrence
version's dependency names whose own entry in `packageVersions` has more
than one occurrence. -/
def relatedDepsOf (pv : List (String × List PackageVersion))
    (packageInfo : NpmPackageInfo) (versionInfo : List PackageVersion) :
    List String :=
  dedupFirst
    ((versionInfo.flatMap (depKeysOfVersion packageInfo)).filter
      (isDuplicatedName pv))

/-- The body of the `versions.size > 1 && packageInfo` branch of
`analyzeDuplicateDependencies` (part of the source's single loop,
factored out for one group): builds the enriched duplicate record. -/
def enrichGroup (pv : List (String × List PackageVersion)) (name : String)
    (versionInfo : List PackageVersion) (packageInfo : NpmPackageInfo) :
    EnrichedDuplicate :=
  let latestVersion := versionInfo.foldl
    (fun latest current =>
      if semverGtStr current.version latest.version then current else latest)
    ((versionInfo.head?).getD ⟨"", ""⟩)
  let latestCompatible := findLatestCompatibleVersion latestVersion.version
    packageInfo
    ((lookupVersion packageInfo latestVersion.version).bind
      (·.peerDependencies))
  let suggestedFix : Option SuggestedFix :=
    latestCompatible.map (fun lc =>
      { version := lc.1
        reason := "Upgrading to version " ++ lc.1 ++
          " would resolve duplicate dependencies"
        breakingChanges := some lc.2
        peerDependencies :=
          (lookupVersion packageInfo lc.1).bind (·.peerDependencies) })
  let upgradeStrategies : List DeduplicationStrategy :=
    match latestCompatible with
    | none => []
    | some lc =>
      [{ type := .upgrade
         description := "Upgrade to version " ++ lc.1
         command := some ("npm install " ++ name ++ "@" ++ lc.1)
         confidence := if lc.2 then .medium else .high }]
  let hoistStrategies : List DeduplicationStrategy :=
    if versionInfo.any (fun v => strContains v.location "node_modules") then
      [{ type := .hoist
         description := "Hoist common dependencies to the root node_modules"
         confidence := .medium }]
    else []
  let relatedDeps := relatedDepsOf pv packageInfo versionInfo
  { name := name
    versions := versionInfo.map (·.version)
    locations := versionInfo.map (·.location)
    suggestedFix := suggestedFix
    deduplicationImpact := some (calculateDeduplicationImpact
      (versionInfo.map (·.version)) packageInfo)
    deduplicationStrategies := upgradeStrategies ++
      [{ type := .dedupe
         description := "Use npm dedupe to remove duplicate dependencies"
         command := some "npm dedupe"
         confidence := .high }] ++ hoistStrategies
    relatedDuplicates := if relatedDeps ≠ [] then some relatedDeps else none }

/-- `analyzeDuplicateDependencies` (the duplicate-dependencies module):
for each name with more than one recorded occurrence, fetch registry
metadata; when the fetch fails (`null`), the group is skipped; otherwise
the enriched record is appended. -/
def analyzeDuplicateDependencies
    (getPackageInfo : String → Option NpmPackageInfo)
    (packageVersions : List (String × List PackageVersion)) :
    List EnrichedDuplicate :=
  packageVersions.filterMap (fun g =>
    if g.2.length > 1 then
      (getPackageInfo g.1).map (fun info => enrichGroup packageVersions g.1 g.2 info)
    else none)

theorem enrichGroup_name (pv : List (String × List PackageVersion))
    (name : String) (vi : List PackageVersion) (info : NpmPackageInfo) :
    (enrichGroup pv name vi info).name = name := rfl

theorem enrichGroup_relatedDuplicates
    (pv : List (String × List PackageVersion)) (name : String)
    (vi : List PackageVersion) (info : NpmPackageInfo) :
    (enrichGroup pv name vi info).relatedDuplicates =
      (if relatedDepsOf pv info vi ≠ [] then some (relatedDepsOf pv info vi)
       else none) := rfl

theorem mem_analyzeDuplicateDependencies
    {getPackageInfo : String → Option NpmPackageInfo}
    {pv : List (String × List PackageVersion)} {d : EnrichedDuplicate} :
    d ∈ analyzeDuplicateDependencies getPackageInfo pv ↔
      ∃ g ∈ pv, 1 < g.2.length ∧ ∃ info, getPackageInfo g.1 = some info ∧
        d = enrichGroup pv g.1 g.2 info := by
  unfold analyzeDuplicateDependencies
  rw [List.mem_filterMap]
  constructor
  · rintro ⟨g, hg, hf⟩
    by_cases hl : g.2.length > 1
    · rw [if_pos hl] at hf
      rcases Option.map_eq_some'.mp hf with ⟨info, hinfo, hd⟩
      exact ⟨g, hg, hl, info, hinfo, hd.symm⟩
    · rw [if_neg hl] at hf
      exact absurd hf (by simp)
  · rintro ⟨g, hg, hl, info, hinfo, hd⟩
    refine ⟨g, hg, ?_⟩
    rw [if_pos hl, hinfo]
    rw [hd]
    rfl

/-- C5 (amended): when the registry fetch for a package name fails
(`getPackageInfo` returns `null`), `analyzeDuplicateDependencies` **omits
that name's group from the returned list entirely** — the run itself does
not fail, but the group is not returned unmodified as the claim states. -/
theorem C5_fetch_failure_omits_group
    (getPackageInfo : String → Option NpmPackageInfo)
    (pv : List (String × List PackageVersion)) (name : String)
    (hfail : getPackageInfo name = none) :
    ∀ d ∈ analyzeDuplicateDependencies getPackageInfo pv, d.name ≠ name := by
  intro d hd hname
  rcases mem_analyzeDuplicateDependencies.mp hd with
    ⟨g, _, _, info, hinfo, hd'⟩
  have : d.name = g.1 := by rw [hd', enrichGroup_name]
  rw [this] at hname
  rw [hname, hfail] at hinfo
  exact absurd hinfo (by simp)

def c5pv : List (String × List PackageVersion) :=
  [("x", [⟨"1.0.0", "/r/node_modules/x"⟩,
          ⟨"2.0.0", "/r/node_modules/a/node_modules/x"⟩])]

/-- C5 counterexample: a genuine duplicate group (`x`, two occurrences)
whose registry fetch fails is **absent** from the result — the output is
empty, not "the group unmodified with no suggested fix". -/
theorem C5_counterexample :
    1 < ((pvLookup c5pv "x").getD []).length ∧
      analyzeDuplicateDependencies (fun _ => none) c5pv = [] := by
  constructor
  · decide
  · decide

/-- C5 witness: instantiates `C5_fetch_failure_omits_group` on `c5pv`. -/
theorem C5_witness :
    ((fun (_ : String) => (none : Option NpmPackageInfo)) "x" = none) ∧
    ∀ d ∈ analyzeDuplicateDependencies (fun _ => none) c5pv, d.name ≠ "x" :=
  ⟨rfl, C5_fetch_failure_omits_group (fun _ => none) c5pv "x" rfl⟩

theorem isDuplicatedName_spec {pv : List (String × List PackageVersion)}
    {r : String} (h : isDuplicatedName pv r = true) :
    ∃ vs, pvLookup pv r = some vs ∧ 1 < vs.length := by
  unfold isDuplicatedName at h
  rcases hm : pvLookup pv r with _ | vs
  · rw [hm] at h
    simp at h
  · rw [hm] at h
    simp only [decide_eq_true_eq] at h
    exact ⟨vs, rfl, h⟩

/-- C8 (amended): every name in `relatedDuplicates` has an entry in the
tree's `packageVersions` map with more than one occurrence; however, the
list **can contain the group's own name** when the registry metadata
records the package as a dependency of itself (see the counterexample),
so "never includes the group's own name" does not hold of the code. -/
theorem C8_relatedDuplicates_duplicated
    (getPackageInfo : String → Option NpmPackageInfo)
    (pv : List (String × List PackageVersion)) (d : EnrichedDuplicate)
    (hd : d ∈ analyzeDuplicateDependencies getPackageInfo pv)
    (rel : List String) (hrel : d.relatedDuplicates = some rel) :
    ∀ r ∈ rel, ∃ vs, pvLookup pv r = some vs ∧ 1 < vs.length := by
  intro r hr
  rcases mem_analyzeDuplicateDependencies.mp hd with
    ⟨g, _, _, info, _, hd'⟩
  rw [hd', enrichGroup_relatedDuplicates] at hrel
  by_cases hne : relatedDepsOf pv info g.2 ≠ []
  · rw [if_pos hne] at hrel
    injection hrel with hrel
    subst hrel
    unfold relatedDepsOf at hr
    rw [mem_dedupFirst] at hr
    rw [List.mem_filter] at hr
    exact isDuplicatedName_spec hr.2
  · rw [if_neg hne] at hrel
    exact absurd hrel (by simp)

def c8meta1 : VersionMeta :=
  { version := "1.0.0", dependencies := some [("self-dep", "^1.0.0")] }

def c8meta2 : VersionMeta :=
  { version := "2.0.0", dependencies := some [("self-dep", "^2.0.0")] }

def c8info : NpmPackageInfo :=
  { versions := [("1.0.0", c8meta1), ("2.0.0", c8meta2)] }

def c8pv : List (String × List PackageVersion) :=
  [("self-dep", [⟨"1.0.0", "/r/node_modules/self-dep"⟩,
                 ⟨"2.0.0", "/r/node_modules/a/node_modules/self-dep"⟩])]

/-- C8 counterexample: a package whose registry metadata lists itself as a
dependency yields a `relatedDuplicates` list containing the group's own
name — refuting "never contains the group's own package name". -/
theorem C8_counterexample :
    (analyzeDuplicateDependencies
        (fun n => if n = "self-dep" then some c8info else none) c8pv).map
      (fun d => (d.name, d.relatedDuplicates)) =
      [("self-dep", some ["self-dep"])] := by
  decide

/-- C8 witness: instantiates `C8_relatedDuplicates_duplicated` on the
concrete `c8pv` tree at the related name `"self-dep"`. -/
theorem C8_witness :
    ∃ vs, pvLookup c8pv "self-dep" = some vs ∧ 1 < vs.length := by
  have hd : (analyzeDuplicateDependencies
      (fun n => if n = "self-dep" then some c8info else none) c8pv) =
      [enrichGroup c8pv "self-dep"
        [⟨"1.0.0", "/r/node_modules/self-dep"⟩,
         ⟨"2.0.0", "/r/node_modules/a/node_modules/self-dep"⟩] c8info] := by
    decide
  have hmem : enrichGroup c8pv "self-dep"
      [⟨"1.0.0", "/r/node_modules/self-dep"⟩,
       ⟨"2.0.0", "/r/node_modules/a/node_modules/self-dep"⟩] c8info ∈
      analyzeDuplicateDependencies
        (fun n => if n = "self-dep" then some c8info else none) c8pv := by
    rw [hd]
    exact List.mem_singleton.mpr rfl
  exact C8_relatedDuplicates_duplicated _ c8pv _ hmem ["self-dep"]
    (by decide) "self-dep" (by decide)

theorem mem_insertDesc (v x : SemVer) (l : List SemVer) :
    x ∈ insertDesc v l ↔ x = v ∨ x ∈ l := by
  induction l with
  | nil => simp [insertDesc]
  | cons y ys ih =>
    rw [insertDesc]
    by_cases h : semverLtB y v
    · rw [if_pos h]
      simp [List.mem_cons]
    · rw [if_neg h]
      simp only [List.mem_cons, ih]
      tauto

theorem mem_sortDesc (x : SemVer) (l : List SemVer) :
    x ∈ sortDesc l ↔ x ∈ l := by
  induction l with
  | nil => simp [sortDesc]
  | cons y ys ih =>
    rw [sortDesc, List.foldr_cons]
    rw [mem_insertDesc]
    rw [show List.foldr insertDesc [] ys = sortDesc ys from rfl, ih]
    simp [List.mem_cons]

theorem peersOk_true {p : Option (List (String × String))}
    {vi : VersionMeta} (h : peersOk p vi = true) :
    ∃ pd vpd, p = some pd ∧ vi.peerDependencies = some vpd ∧
      pd.all (peerEntryOk vpd) = true := by
  unfold peersOk at h
  rcases hp : p with _ | pd <;> rcases hv : vi.peerDependencies with _ | vpd <;>
    rw [hp, hv] at h
  · exact absurd h (by simp)
  · exact absurd h (by simp)
  · exact absurd h (by simp)
  · exact ⟨pd, vpd, rfl, rfl, h⟩

theorem findLoop_sound (cur : SemVer) (info : NpmPackageInfo)
    (peer : Option (List (String × String))) :
    ∀ (l : List SemVer) (v : String) (b : Bool),
      findLoop cur info peer l = some (v, b) →
      ∃ sv ∈ l, v = render sv ∧
        (b = false → sv.major = cur.major) ∧
        (b = true → sv.major ≠ cur.major ∧
          ∃ pd meta vpd, peer = some pd ∧
            lookupVersion info (render sv) = some meta ∧
            meta.peerDependencies = some vpd ∧
            pd.all (peerEntryOk vpd) = true) := by
  intro l
  induction l with
  | nil =>
    intro v b h
    exact absurd h (by simp [findLoop])
  | cons x rest ih =>
    intro v b h
    rw [findLoop] at h
    by_cases hmaj : x.major = cur.major
    · rw [if_pos hmaj] at h
      injection h with h
      have hv := congrArg Prod.fst h
      have hb := congrArg Prod.snd h
      simp only at hv hb
      refine ⟨x, List.mem_cons_self _ _, hv.symm, fun _ => hmaj,
        fun hbt => ?_⟩
      rw [← hb] at hbt
      exact absurd hbt (by simp)
    · rw [if_neg hmaj] at h
      cases hlv : lookupVersion info (render x) with
      | none =>
        rw [hlv] at h
        exact absurd h (by simp)
      | some meta =>
        rw [hlv] at h
        have h' : (if peersOk peer meta = true then some (render x, true)
            else findLoop cur info peer rest) = some (v, b) := h
        clear h
        by_cases hok : peersOk peer meta = true
        · rw [if_pos hok] at h'
          injection h' with h
          have hv := congrArg Prod.fst h
          have hb := congrArg Prod.snd h
          simp only at hv hb
          refine ⟨x, List.mem_cons_self _ _, hv.symm, fun hbf => ?_,
            fun _ => ?_⟩
          · rw [← hb] at hbf
            exact absurd hbf (by simp)
          · rcases peersOk_true hok with ⟨pd, vpd, hp, hvpd, hall⟩
            exact ⟨hmaj, pd, meta, vpd, hp, hlv, hvpd, hall⟩
        · rw [if_neg hok] at h'
          rcases ih v b h' with ⟨sv, hsv, rest'⟩
          exact ⟨sv, List.mem_cons_of_mem _ hsv, rest'⟩

/-- C6 (amended): `findLatestCompatibleVersion` walks the published
versions newest-first and returns the **first acceptable candidate**,
where a candidate sharing the major of the group's highest version is
offered as non-breaking, and a candidate of a *different* major whose
declared peer-dependency record, together with the group's recorded
peer-dependency constraints, passes the satisfiability check is offered
as breaking.  Consequently: a non-breaking result shares the current
major, and a breaking result has a different major with both
peer-dependency records present and every recorded constraint passing.
The unamended claim's "only if no same-major version exists" ordering is
false: a newer different-major candidate encountered first wins (see the
counterexample). -/
theorem C6_findLatest_sound (cur : String) (info : NpmPackageInfo)
    (peer : Option (List (String × String))) (v : String) (b : Bool)
    (h : findLatestCompatibleVersion cur info peer = some (v, b)) :
    ∃ c, semverParse cur = some c ∧
      ∃ sv, sv ∈ (info.versions.map Prod.fst).filterMap semverParse ∧
        v = render sv ∧
        (b = false → sv.major = c.major) ∧
        (b = true → sv.major ≠ c.major ∧
          ∃ pd meta vpd, peer = some pd ∧
            lookupVersion info v = some meta ∧
            meta.peerDependencies = some vpd ∧
            pd.all (peerEntryOk vpd) = true) := by
  unfold findLatestCompatibleVersion at h
  cases hc : semverParse cur with
  | none =>
    rw [hc] at h
    exact absurd h (by simp)
  | some c =>
    rw [hc] at h
    rcases findLoop_sound c info peer _ v b h with
      ⟨sv, hsv, hvr, hfalse, htrue⟩
    refine ⟨c, rfl, sv, (mem_sortDesc sv _).mp hsv, hvr, hfalse,
      fun hbt => ?_⟩
    rcases htrue hbt with ⟨hmaj, pd, meta, vpd, hp, hlk, hvpd, hall⟩
    rw [← hvr] at hlk
    exact ⟨hmaj, pd, meta, vpd, hp, hlk, hvpd, hall⟩

def c6info : NpmPackageInfo :=
  { versions :=
      [("1.0.0", { version := "1.0.0",
                   peerDependencies := some [("a", "^1.0.0")] }),
       ("1.5.0", { version := "1.5.0" }),
       ("2.0.0", { version := "2.0.0", peerDependencies := some [] })] }

/-- C6 counterexample: the registry holds `1.5.0`, which shares the major
version of the group's highest version `1.0.0`, yet the newest-first walk
reaches `2.0.0` first, whose empty peer-dependency record passes the
satisfiability gate, so the **breaking** upgrade `2.0.0` is offered — the
claim's "only if no such [same-major] version exists" is false. -/
theorem C6_counterexample :
    findLatestCompatibleVersion "1.0.0" c6info (some [("a", "^1.0.0")]) =
        some ("2.0.0", true) ∧
      "1.5.0" ∈ c6info.versions.map Prod.fst ∧
      (semverParse "1.5.0").map SemVer.major =
        (semverParse "1.0.0").map SemVer.major := by
  refine ⟨by decide, by decide, by decide⟩

def c6winfo : NpmPackageInfo :=
  { versions := [("1.2.0", { version := "1.2.0" })] }

/-- C6 witness: instantiates `C6_findLatest_sound` on a registry where the
non-breaking candidate `1.2.0` is found. -/
theorem C6_witness :
    ∃ c, semverParse "1.0.0" = some c ∧
      ∃ sv, sv ∈ (c6winfo.versions.map Prod.fst).filterMap semverParse ∧
        "1.2.0" = render sv ∧
        (false = false → sv.major = c.major) ∧
        (false = true → sv.major ≠ c.major ∧
          ∃ pd meta vpd, (none : Option (List (String × String))) = some pd ∧
            lookupVersion c6winfo "1.2.0" = some meta ∧
            meta.peerDependencies = some vpd ∧
            pd.all (peerEntryOk vpd) = true) :=
  C6_findLatest_sound "1.0.0" c6winfo none "1.2.0" false (by decide)

/-! ## dependency-tree.ts: `DependencyTreeBuilder`

The `FileSystem` collaborator is embedded as data: the file list returned
by `listPackageFiles()`, the root directory, and the outcome of
`readFile` + `JSON.parse` per path (`none` = file absent or unparsable,
the two cases `parsePackageJson` collapses by catching).  The unbounded
recursion of `processDependencies` is indexed by fuel, consumed on every
loop entry and every descent; `none` means the fuel ran out before the
traversal finished, so a traversal that exceeds *every* fuel never
finishes. -/

structure FileSystem where
  rootDir : String
  packageFiles : List String
  manifests : List (String × Option PackageJsonLike)

/-- `DependencyTreeBuilder.parsePackageJson` (dependency-tree.ts
136-144): read + parse, `null` on any failure. -/
def parsePackageJson (fs : FileSystem) (packagePath : String) :
    Option PackageJsonLike :=
  match fs.manifests.find? (fun p => p.1 = packagePath) with
  | none => none
  | some p => p.2

/-- `DependencyTreeBuilder.findPackageJson` (dependency-tree.ts 113-131):
exact `node_modules/<name>/package.json` substring match first, then the
scoped-package pattern built from `name.split('/')` — where a missing
second segment interpolates as the literal string `"undefined"`, as
JavaScript template literals do. -/
def findPackageJson (fs : FileSystem) (depName : String) : Option String :=
  match fs.packageFiles.find? (fun file =>
      strContains file ("/node_modules/" ++ depName ++ "/package.json")) with
  | some exactMatch => some exactMatch
  | none =>
    match splitOnChar '/' depName.toList with
    | [] => none
    | p0 :: restParts =>
      let p1 : String :=
        match restParts with
        | [] => "undefined"
        | p1 :: _ => p1.asString
      fs.packageFiles.find? (fun file =>
        strContains file
          ("/node_modules/@" ++ p0.asString ++ "/" ++ p1 ++ "/package.json"))

/-- `{...packageJson.dependencies, ...packageJson.devDependencies}`:
object-spread merge — first object's keys in order (values overridden by
the second where shared), then the second object's new keys. -/
def mergeEntries (a b : List (String × String)) : List (String × String) :=
  (a.map (fun p =>
    match b.find? (fun q => q.1 = p.1) with
    | some q => (p.1, q.2)
    | none => p)) ++
  b.filter (fun q => ! a.any (fun p => p.1 = q.1))

/-- The builder's mutable instance state: `visitedPackages` and
`dependencyNodes`. -/
structure BuildState where
  visitedPackages : List String
  dependencyNodes : List DependencyNode
deriving DecidableEq, Repr

/-- `DependencyTreeBuilder.processDependencies` (dependency-tree.ts
62-108), fuel-indexed.  One fuel unit is consumed per dependency entry
and per recursive descent; `none` = fuel exhausted. -/
def processDependencies (fs : FileSystem) :
    Nat → List (String × String) → PackageJsonLike → String → Nat →
    BuildState → Option BuildState
  | _, [], _, _, _, st => some st
  | 0, _ :: _, _, _, _, _ => none
  | fuel + 1, (depName, depVersion) :: rest, packageJson, parentPath,
      depth, st =>
    match findPackageJson fs depName with
    | none => processDependencies fs fuel rest packageJson parentPath depth st
    | some packagePath =>
      if (packagePath ++ ":" ++ (parentPath ++ " > " ++ depName)) ∈
          st.visitedPackages then
        processDependencies fs fuel rest packageJson parentPath depth st
      else
        match parsePackageJson fs packagePath with
        | none =>
          processDependencies fs fuel rest packageJson parentPath depth
            { st with visitedPackages :=
                (packagePath ++ ":" ++ (parentPath ++ " > " ++ depName)) ::
                  st.visitedPackages }
        | some depPackage =>
          match processDependencies fs fuel
              (mergeEntries depPackage.dependencies depPackage.devDependencies)
              depPackage (parentPath ++ " > " ++ depName) (depth + 1)
              { visitedPackages :=
                  (packagePath ++ ":" ++ (parentPath ++ " > " ++ depName)) ::
                    st.visitedPackages
                dependencyNodes := st.dependencyNodes ++
                  [{ name := depName
                     version := depVersion
                     path := parentPath ++ " > " ++ depName
                     parent := some packageJson.name
                     depth := depth
                     packagePath := packagePath }] } with
          | none => none
          | some st3 =>
            processDependencies fs fuel rest packageJson parentPath depth st3

/-- `DependencyTreeBuilder.buildDependencyTree` (dependency-tree.ts
28-57): when the root manifest is absent or unparsable it logs a warning
and returns the empty array; otherwise it seeds the node list with the
root node (depth 0, no parent) and processes the root's merged
dependencies at depth 1. -/
def buildDependencyTree (fs : FileSystem) (fuel : Nat) :
    Option (List DependencyNode) :=
  match parsePackageJson fs (fs.rootDir ++ "/package.json") with
  | none => some []
  | some rootPackage =>
    (processDependencies fs fuel
        (mergeEntries rootPackage.dependencies rootPackage.devDependencies)
        rootPackage "root" 1
        { visitedPackages := []
          dependencyNodes :=
            [{ name := rootPackage.name
               version := rootPackage.version
               path := "root"
               parent := none
               depth := 0
               packagePath := fs.rootDir ++ "/package.json" }] }).map
      (·.dependencyNodes)

/-- C2 (amended): when the root manifest is absent or unparsable,
`buildDependencyTree` logs a warning and returns the **empty node list** —
a normal result, not a thrown `MissingRootManifest` error (no such error
exists in the code; `parsePackageJson` absorbs both the read failure and
the parse failure). -/
theorem C2_missing_root_returns_empty (fs : FileSystem) (fuel : Nat)
    (h : parsePackageJson fs (fs.rootDir ++ "/package.json") = none) :
    buildDependencyTree fs fuel = some [] := by
  unfold buildDependencyTree
  rw [h]

def c2fs : FileSystem :=
  { rootDir := "/r", packageFiles := [], manifests := [] }

/-- C2 counterexample: a store with no root manifest at all — the build
returns the normal empty result `some []`, refuting "fails with a
MissingRootManifest error ... does not return a normal (e.g. empty)
result". -/
theorem C2_counterexample :
    parsePackageJson c2fs (c2fs.rootDir ++ "/package.json") = none ∧
      buildDependencyTree c2fs 3 = some [] := by
  exact ⟨by decide, by decide⟩

/-- C2 witness: instantiates `C2_missing_root_returns_empty` on `c2fs`
with fuel 5. -/
theorem C2_witness :
    parsePackageJson c2fs (c2fs.rootDir ++ "/package.json") = none ∧
      buildDependencyTree c2fs 5 = some [] :=
  ⟨by decide, C2_missing_root_returns_empty c2fs 5 (by decide)⟩

/-- Stepping lemma: when a dependency entry resolves, is unvisited and
parses, and the recursive descent into it exhausts its fuel, the whole
call exhausts its fuel. -/
theorem processDependencies_descend_none (fs : FileSystem) (fuel : Nat)
    (depName depVersion : String) (rest : List (String × String))
    (pkg : PackageJsonLike) (p : String) (d : Nat) (st : BuildState)
    (packagePath : String) (depPackage : PackageJsonLike)
    (hfind : findPackageJson fs depName = some packagePath)
    (hvis : (packagePath ++ ":" ++ (p ++ " > " ++ depName)) ∉
      st.visitedPackages)
    (hparse : parsePackageJson fs packagePath = some depPackage)
    (hchild : processDependencies fs fuel
        (mergeEntries depPackage.dependencies depPackage.devDependencies)
        depPackage (p ++ " > " ++ depName) (d + 1)
        { visitedPackages :=
            (packagePath ++ ":" ++ (p ++ " > " ++ depName)) ::
              st.visitedPackages
          dependencyNodes := st.dependencyNodes ++
            [{ name := depName
               version := depVersion
               path := p ++ " > " ++ depName
               parent := some pkg.name
               depth := d
               packagePath := packagePath }] } = none) :
    processDependencies fs (fuel + 1) ((depName, depVersion) :: rest)
      pkg p d st = none := by
  rw [processDependencies]
  split
  · rename_i hf
    rw [hfind] at hf
    exact absurd hf (by simp)
  · rename_i pp hf
    rw [hfind] at hf
    injection hf with hf
    subst hf
    rw [if_neg hvis]
    split
    · rename_i hp
      rw [hparse] at hp
      exact absurd hp (by simp)
    · rename_i dp hp
      rw [hparse] at hp
      injection hp with hp
      subst hp
      split
      · rfl
      · rename_i st3 hc
        rw [hchild] at hc
        exact absurd hc (by simp)

/-! ### A two-package dependency cycle: `package-a` ↔ `package-b`. -/

def c3app : PackageJsonLike :=
  { name := "app", version := "1.0.0",
    dependencies := [("package-a", "1.0.0")] }

def c3a : PackageJsonLike :=
  { name := "package-a", version := "1.0.0",
    dependencies := [("package-b", "1.0.0")] }

def c3b : PackageJsonLike :=
  { name := "package-b", version := "1.0.0",
    dependencies := [("package-a", "1.0.0")] }

def c3fs : FileSystem :=
  { rootDir := "/r"
    packageFiles := ["/r/node_modules/package-a/package.json",
                     "/r/node_modules/package-b/package.json"]
    manifests := [("/r/package.json", some c3app),
                  ("/r/node_modules/package-a/package.json", some c3a),
                  ("/r/node_modules/package-b/package.json", some c3b)] }

theorem c3_keyLenA (q : String) :
    ("/r/node_modules/package-a/package.json" ++ ":" ++
      (q ++ " > " ++ "package-a")).length = q.length + 51 := by
  rw [String.length_append, String.length_append, String.length_append,
    String.length_append]
  have h1 : ("/r/node_modules/package-a/package.json" : String).length = 38 := by
    decide
  have h2 : (":" : String).length = 1 := by decide
  have h3 : (" > " : String).length = 3 := by decide
  have h4 : ("package-a" : String).length = 9 := by decide
  omega

theorem c3_keyLenB (q : String) :
    ("/r/node_modules/package-b/package.json" ++ ":" ++
      (q ++ " > " ++ "package-b")).length = q.length + 51 := by
  rw [String.length_append, String.length_append, String.length_append,
    String.length_append]
  have h1 : ("/r/node_modules/package-b/package.json" : String).length = 38 := by
    decide
  have h2 : (":" : String).length = 1 := by decide
  have h3 : (" > " : String).length = 3 := by decide
  have h4 : ("package-b" : String).length = 9 := by decide
  omega

theorem c3_pathLenA (q : String) :
    (q ++ " > " ++ "package-a").length = q.length + 12 := by
  rw [String.length_append, String.length_append]
  have h3 : (" > " : String).length = 3 := by decide
  have h4 : ("package-a" : String).length = 9 := by decide
  omega

theorem c3_pathLenB (q : String) :
    (q ++ " > " ++ "package-b").length = q.length + 12 := by
  rw [String.length_append, String.length_append]
  have h3 : (" > " : String).length = 3 := by decide
  have h4 : ("package-b" : String).length = 9 := by decide
  omega

/-- Every lap of the `package-a` ↔ `package-b` cycle has a fresh
`visitedKey` (the key embeds the ever-growing tree path), so the visited
guard never fires and the walk descends forever: with any fuel, the loop
on either package's single dependency entry exhausts it.  The invariant
`∀ k ∈ visited, k.length < p.length + 51` states that every recorded key
is strictly shorter than the key about to be recorded. -/
theorem c3_diverges_aux : ∀ fuel : Nat,
    (∀ (pkg : PackageJsonLike) (p : String) (d : Nat) (st : BuildState),
      (∀ k ∈ st.visitedPackages, k.length < p.length + 51) →
      processDependencies c3fs fuel [("package-a", "1.0.0")] pkg p d st =
        none) ∧
    (∀ (pkg : PackageJsonLike) (p : String) (d : Nat) (st : BuildState),
      (∀ k ∈ st.visitedPackages, k.length < p.length + 51) →
      processDependencies c3fs fuel [("package-b", "1.0.0")] pkg p d st =
        none) := by
  intro fuel
  induction fuel with
  | zero => exact ⟨fun _ _ _ _ _ => rfl, fun _ _ _ _ _ => rfl⟩
  | succ fuel ih =>
    have hfindA : findPackageJson c3fs "package-a" =
        some "/r/node_modules/package-a/package.json" := by decide
    have hfindB : findPackageJson c3fs "package-b" =
        some "/r/node_modules/package-b/package.json" := by decide
    have hparseA :
        parsePackageJson c3fs "/r/node_modules/package-a/package.json" =
          some c3a := by decide
    have hparseB :
        parsePackageJson c3fs "/r/node_modules/package-b/package.json" =
          some c3b := by decide
    have hmergeA : mergeEntries c3a.dependencies c3a.devDependencies =
        [("package-b", "1.0.0")] := by decide
    have hmergeB : mergeEntries c3b.dependencies c3b.devDependencies =
        [("package-a", "1.0.0")] := by decide
    constructor
    · intro pkg p d st hinv
      refine processDependencies_descend_none c3fs fuel "package-a" "1.0.0"
        [] pkg p d st "/r/node_modules/package-a/package.json" c3a hfindA
        ?_ hparseA ?_
      · intro hk
        have hlt := hinv _ hk
        rw [c3_keyLenA p] at hlt
        omega
      · rw [hmergeA]
        apply ih.2 c3a (p ++ " > " ++ "package-a") (d + 1)
        intro k hk
        rw [c3_pathLenA p]
        rcases List.mem_cons.mp hk with rfl | hk
        · rw [c3_keyLenA p]
          omega
        · have := hinv k hk
          omega
    · intro pkg p d st hinv
      refine processDependencies_descend_none c3fs fuel "package-b" "1.0.0"
        [] pkg p d st "/r/node_modules/package-b/package.json" c3b hfindB
        ?_ hparseB ?_
      · intro hk
        have hlt := hinv _ hk
        rw [c3_keyLenB p] at hlt
        omega
      · rw [hmergeB]
        apply ih.1 c3b (p ++ " > " ++ "package-b") (d + 1)
        intro k hk
        rw [c3_pathLenB p]
        rcases List.mem_cons.mp hk with rfl | hk
        · rw [c3_keyLenB p]
          omega
        · have := hinv k hk
          omega

/-- C3: with a dependency cycle (`package-a` depends on `package-b` and
`package-b` depends on `package-a`), `buildDependencyTree` **never
finishes**: every `visitedKey` embeds the full, strictly growing tree
path, so the visited guard never fires and the recursion descends without
bound — the fuel-indexed embedding exhausts every fuel.  This refutes the
claim's termination statement; the code's own comment ("Check if we've
already processed this package at this path") and the spec's cycle-guard
intent make this a code bug. -/
theorem C3_cyclic_build_diverges : ∀ fuel : Nat,
    buildDependencyTree c3fs fuel = none := by
  intro fuel
  unfold buildDependencyTree
  have hroot : parsePackageJson c3fs (c3fs.rootDir ++ "/package.json") =
      some c3app := by decide
  split
  · rename_i hp
    rw [hroot] at hp
    exact absurd hp (by simp)
  · rename_i rootPackage hp
    rw [hroot] at hp
    injection hp with hp
    subst hp
    have hm : mergeEntries c3app.dependencies c3app.devDependencies =
        [("package-a", "1.0.0")] := by decide
    rw [hm]
    rw [(c3_diverges_aux fuel).1 c3app "root" 1 _ ?_]
    · rfl
    · intro k hk
      exact absurd hk (List.not_mem_nil k)

/-! ### Branch equations for `processDependencies` -/

theorem processDependencies_cons_missing (fs : FileSystem) (fuel : Nat)
    (depName depVersion : String) (rest : List (String × String))
    (pkg : PackageJsonLike) (p : String) (d : Nat) (st : BuildState)
    (hfind : findPackageJson fs depName = none) :
    processDependencies fs (fuel + 1) ((depName, depVersion) :: rest)
        pkg p d st =
      processDependencies fs fuel rest pkg p d st := by
  rw [processDependencies]
  split
  · rfl
  · rename_i pp hf
    rw [hfind] at hf
    exact absurd hf (by simp)

theorem processDependencies_cons_visited (fs : FileSystem) (fuel : Nat)
    (depName depVersion : String) (rest : List (String × String))
    (pkg : PackageJsonLike) (p : String) (d : Nat) (st : BuildState)
    (pp : String)
    (hfind : findPackageJson fs depName = some pp)
    (hvis : (pp ++ ":" ++ (p ++ " > " ++ depName)) ∈ st.visitedPackages) :
    processDependencies fs (fuel + 1) ((depName, depVersion) :: rest)
        pkg p d st =
      processDependencies fs fuel rest pkg p d st := by
  rw [processDependencies]
  split
  · rename_i hf
    rw [hfind] at hf
  · rename_i pp' hf
    rw [hfind] at hf
    injection hf with hf
    subst hf
    rw [if_pos hvis]

theorem processDependencies_cons_unparsable (fs : FileSystem) (fuel : Nat)
    (depName depVersion : String) (rest : List (String × String))
    (pkg : PackageJsonLike) (p : String) (d : Nat) (st : BuildState)
    (pp : String)
    (hfind : findPackageJson fs depName = some pp)
    (hvis : (pp ++ ":" ++ (p ++ " > " ++ depName)) ∉ st.visitedPackages)
    (hparse : parsePackageJson fs pp = none) :
    processDependencies fs (fuel + 1) ((depName, depVersion) :: rest)
        pkg p d st =
      processDependencies fs fuel rest pkg p d
        { st with visitedPackages :=
            (pp ++ ":" ++ (p ++ " > " ++ depName)) :: st.visitedPackages } := by
  rw [processDependencies]
  split
  · rename_i hf
    rw [hfind] at hf
    exact absurd hf (by simp)
  · rename_i pp' hf
    rw [hfind] at hf
    injection hf with hf
    subst hf
    rw [if_neg hvis]
    split
    · rfl
    · rename_i dp hp
      rw [hparse] at hp
      exact absurd hp (by simp)

theorem processDependencies_cons_found (fs : FileSystem) (fuel : Nat)
    (depName depVersion : String) (rest : List (String × String))
    (pkg : PackageJsonLike) (p : String) (d : Nat) (st : BuildState)
    (pp : String) (dp : PackageJsonLike)
    (hfind : findPackageJson fs depName = some pp)
    (hvis : (pp ++ ":" ++ (p ++ " > " ++ depName)) ∉ st.visitedPackages)
    (hparse : parsePackageJson fs pp = some dp) :
    processDependencies fs (fuel + 1) ((depName, depVersion) :: rest)
        pkg p d st =
      match processDependencies fs fuel
          (mergeEntries dp.dependencies dp.devDependencies) dp
          (p ++ " > " ++ depName) (d + 1)
          { visitedPackages :=
              (pp ++ ":" ++ (p ++ " > " ++ depName)) :: st.visitedPackages
            dependencyNodes := st.dependencyNodes ++
              [{ name := depName
                 version := depVersion
                 path := p ++ " > " ++ depName
                 parent := some pkg.name
                 depth := d
                 packagePath := pp }] } with
      | none => none
      | some st3 => processDependencies fs fuel rest pkg p d st3 := by
  rw [processDependencies]
  split
  · rename_i hf
    rw [hfind] at hf
    exact absurd hf (by simp)
  · rename_i pp' hf
    rw [hfind] at hf
    injection hf with hf
    subst hf
    rw [if_neg hvis]
    split
    · rename_i hp
      rw [hparse] at hp
      exact absurd hp (by simp)
    · rename_i dp' hp
      rw [hparse] at hp
      injection hp with hp
      subst hp
      rfl

/-- The depth/parent well-formedness of one node relative to a node list:
either it is the root entry (depth 0, no parent, path `"root"`), or it was
created under a parent node one level up whose tree path it extends. -/
def GoodNode (nodes : List DependencyNode) (n : DependencyNode) : Prop :=
  (n.depth = 0 ∧ n.parent = none ∧ n.path = "root") ∨
  (n.parent ≠ none ∧ ∃ m ∈ nodes, n.depth = m.depth + 1 ∧
    n.path = m.path ++ " > " ++ n.name)

theorem GoodNode_mono {ns ns' : List DependencyNode} {n : DependencyNode}
    (h : GoodNode ns n) (hsub : ∀ m ∈ ns, m ∈ ns') : GoodNode ns' n := by
  rcases h with h | ⟨hp, m, hm, h1, h2⟩
  · exact Or.inl h
  · exact Or.inr ⟨hp, m, hsub m hm, h1, h2⟩

theorem processDependencies_good (fs : FileSystem) :
    ∀ (fuel : Nat) (entries : List (String × String))
      (pkg : PackageJsonLike) (parentPath : String) (depth : Nat)
      (st : BuildState),
      ∀ st' : BuildState,
        processDependencies fs fuel entries pkg parentPath depth st =
          some st' →
        (∃ m ∈ st.dependencyNodes, m.path = parentPath ∧
          m.depth + 1 = depth) →
        (∀ n ∈ st.dependencyNodes, GoodNode st.dependencyNodes n) →
        (∃ t, st'.dependencyNodes = st.dependencyNodes ++ t) ∧
        (∀ n ∈ st'.dependencyNodes, GoodNode st'.dependencyNodes n) := by
  intro fuel entries pkg parentPath depth st
  induction fuel, entries, pkg, parentPath, depth, st
    using processDependencies.induct fs with
  | case1 fuel pkg parentPath depth st =>
    intro st' h hpar hgood
    rw [processDependencies] at h
    injection h with h
    subst h
    exact ⟨⟨[], by simp⟩, hgood⟩
  | case2 e rest pkg parentPath depth st =>
    intro st' h _ _
    rw [processDependencies] at h
    exact absurd h (by simp)
  | case3 fuel depName depVersion rest pkg parentPath depth st hfind ih =>
    intro st' h hpar hgood
    rw [processDependencies_cons_missing fs fuel depName depVersion rest
      pkg parentPath depth st hfind] at h
    exact ih st' h hpar hgood
  | case4 fuel depName depVersion rest pkg parentPath depth st pp hfind
      hvis ih =>
    intro st' h hpar hgood
    rw [processDependencies_cons_visited fs fuel depName depVersion rest
      pkg parentPath depth st pp hfind hvis] at h
    exact ih st' h hpar hgood
  | case5 fuel depName depVersion rest pkg parentPath depth st pp hfind
      hvis hparse ih =>
    intro st' h hpar hgood
    rw [processDependencies_cons_unparsable fs fuel depName depVersion rest
      pkg parentPath depth st pp hfind hvis hparse] at h
    exact ih st' h hpar hgood
  | case6 fuel depName depVersion rest pkg parentPath depth st pp hfind
      hvis dp hparse hchild ih =>
    intro st' h _ _
    rw [processDependencies_cons_found fs fuel depName depVersion rest
      pkg parentPath depth st pp dp hfind hvis hparse] at h
    rw [hchild] at h
    exact absurd h (by simp)
  | case7 fuel depName depVersion rest pkg parentPath depth st pp hfind
      hvis dp hparse st3 hchild ihChild ihRest =>
    intro st' h hpar hgood
    rw [processDependencies_cons_found fs fuel depName depVersion rest
      pkg parentPath depth st pp dp hfind hvis hparse] at h
    rw [hchild] at h
    have h' : processDependencies fs fuel rest pkg parentPath depth st3 =
        some st' := h
    rcases hpar with ⟨m, hm, hmpath, hmdepth⟩
    have hnewGood : ∀ n ∈ st.dependencyNodes ++
        [{ name := depName
           version := depVersion
           path := parentPath ++ " > " ++ depName
           parent := some pkg.name
           depth := depth
           packagePath := pp }],
        GoodNode (st.dependencyNodes ++
          [{ name := depName
             version := depVersion
             path := parentPath ++ " > " ++ depName
             parent := some pkg.name
             depth := depth
             packagePath := pp }]) n := by
      intro n hn
      rcases List.mem_append.mp hn with hn | hn
      · exact GoodNode_mono (hgood n hn)
          (fun m' hm' => List.mem_append_left _ hm')
      · rw [List.mem_singleton] at hn
        subst hn

        refine Or.inr ⟨by simp, m, List.mem_append_left _ hm, ?_, ?_⟩
        · simpa using hmdepth.symm
        · rw [hmpath]
    have hchildPar : ∃ m' ∈ st.dependencyNodes ++
        [{ name := depName
           version := depVersion
           path := parentPath ++ " > " ++ depName
           parent := some pkg.name
           depth := depth
           packagePath := pp }],
        m'.path = parentPath ++ " > " ++ depName ∧
        m'.depth + 1 = depth + 1 := by
      refine ⟨_, List.mem_append_right _ (List.mem_singleton.mpr rfl),
        rfl, rfl⟩
    rcases ihChild st3 hchild hchildPar hnewGood with ⟨⟨t2, ht2⟩, hgood3⟩
    have hparRest : ∃ m' ∈ st3.dependencyNodes, m'.path = parentPath ∧
        m'.depth + 1 = depth := by
      refine ⟨m, ?_, hmpath, hmdepth⟩
      rw [ht2]
      exact List.mem_append_left _ (List.mem_append_left _ hm)
    rcases ihRest st' h' hparRest hgood3 with ⟨⟨t3, ht3⟩, hgood'⟩
    refine ⟨⟨[{ name := depName
                version := depVersion
                path := parentPath ++ " > " ++ depName
                parent := some pkg.name
                depth := depth
                packagePath := pp }] ++ t2 ++ t3, ?_⟩, hgood'⟩
    rw [ht3, ht2]
    simp [List.append_assoc]

/-- C7: in every node list the builder produces, the first node (the root
entry, when the tree is nonempty) has depth 0, no parent and path
`"root"`, and every node is either that root entry or was created under a
parent node one level shallower whose tree path it extends by
`" > " ++ name`. -/
theorem C7_depth_invariant (fs : FileSystem) (fuel : Nat)
    (nodes : List DependencyNode)
    (h : buildDependencyTree fs fuel = some nodes) :
    (∀ r, nodes.head? = some r →
      r.depth = 0 ∧ r.parent = none ∧ r.path = "root") ∧
    (∀ n ∈ nodes, GoodNode nodes n) := by
  unfold buildDependencyTree at h
  split at h
  · injection h with h
    subst h
    exact ⟨fun r hr => absurd hr (by simp), fun n hn => absurd hn (by simp)⟩
  · rename_i rootPackage hp
    rcases Option.map_eq_some'.mp h with ⟨st', hst', hnodes⟩
    subst hnodes
    have hmain := processDependencies_good fs fuel
      (mergeEntries rootPackage.dependencies rootPackage.devDependencies)
      rootPackage "root" 1
      { visitedPackages := []
        dependencyNodes :=
          [{ name := rootPackage.name
             version := rootPackage.version
             path := "root"
             parent := none
             depth := 0
             packagePath := fs.rootDir ++ "/package.json" }] }
      st' hst'
      ⟨_, List.mem_singleton.mpr rfl, rfl, rfl⟩
      (by
        intro n hn
        rw [List.mem_singleton] at hn
        subst hn
        exact Or.inl ⟨rfl, rfl, rfl⟩)
    rcases hmain with ⟨⟨t, ht⟩, hgood⟩
    refine ⟨?_, hgood⟩
    intro r hr
    rw [ht] at hr
    rw [List.singleton_append, List.head?_cons] at hr
    injection hr with hr
    subst hr
    exact ⟨rfl, rfl, rfl⟩

def c7root : PackageJsonLike :=
  { name := "my-app", version := "1.0.0",
    dependencies := [("package-a", "1.0.0")] }

def c7a : PackageJsonLike :=
  { name := "package-a", version := "1.0.0" }

def c7fs : FileSystem :=
  { rootDir := "/r"
    packageFiles := ["/r/node_modules/package-a/package.json"]
    manifests := [("/r/package.json", some c7root),
                  ("/r/node_modules/package-a/package.json", some c7a)] }

def c7nodes : List DependencyNode :=
  [{ name := "my-app", version := "1.0.0", path := "root", parent := none,
     depth := 0, packagePath := "/r/package.json" },
   { name := "package-a", version := "1.0.0", path := "root > package-a",
     parent := some "my-app", depth := 1,
     packagePath := "/r/node_modules/package-a/package.json" }]

/-- C7 witness: instantiates `C7_depth_invariant` on a concrete store
whose build yields the root node plus one dependency node. -/
theorem C7_witness :
    buildDependencyTree c7fs 10 = some c7nodes ∧
    ((∀ r, c7nodes.head? = some r →
        r.depth = 0 ∧ r.parent = none ∧ r.path = "root") ∧
      (∀ n ∈ c7nodes, GoodNode c7nodes n)) :=
  ⟨by decide, C7_depth_invariant c7fs 10 c7nodes (by decide)⟩

/-! ## analyze-dependencies.ts

The three analyzers share the counting scheme over classified module
types.  `analyzePackageModuleType` lives in `compute-type.ts`, outside the
embedded core; it enters as an explicit classifier parameter, so the
counting theorems hold for *every* classifier.  `walkNodeModules`'s
filesystem traversal is external I/O; the sequence of manifests it hands
to the `onPackage` callback (first occurrence per encounter order) and the
file sizes it hands to `onFile` are inputs here. -/

inductive ModuleType where
  | cjs
  | esm
  | dual
  | unknown
deriving DecidableEq, Repr

structure CountState where
  seenPackages : List String
  cjsDependencies : Nat
  esmDependencies : Nat
deriving DecidableEq, Repr

/-- The counter updates of the `onPackage` callback
(analyze-dependencies.ts 52-57, repeated at 252-257): two independent
increments plus the dual case incrementing both. -/
def applyModuleType (t : ModuleType) (cjs esm : Nat) : Nat × Nat :=
  let cjs1 := if t = ModuleType.cjs then cjs + 1 else cjs
  let esm1 := if t = ModuleType.esm then esm + 1 else esm
  if t = ModuleType.dual then (cjs1 + 1, esm1 + 1) else (cjs1, esm1)

/-- One package encounter: the `seenPackages` guard (each package name
processed once) around classification and counting
(analyze-dependencies.ts 143-149 and 246-258). -/
def onPackageStep (classify : PackageJsonLike → ModuleType)
    (st : CountState) (pkg : PackageJsonLike) : CountState :=
  if pkg.name ∈ st.seenPackages then st
  else
    { seenPackages := pkg.name :: st.seenPackages
      cjsDependencies :=
        (applyModuleType (classify pkg) st.cjsDependencies
          st.esmDependencies).1
      esmDependencies :=
        (applyModuleType (classify pkg) st.cjsDependencies
          st.esmDependencies).2 }

structure DependencyStats where
  totalDependencies : Nat
  directDependencies : Nat
  devDependencies : Nat
  cjsDependencies : Nat
  esmDependencies : Nat
  installSize : Nat
deriving DecidableEq, Repr

/-- `LocalDependencyAnalyzer.analyzeDependencies`
(analyze-dependencies.ts 21-89): parse the root manifest (any failure
rethrown as `Error analyzing dependencies`), count direct/dev keys, then
walk `node_modules` counting classified module types and file sizes. -/
def localAnalyzeDependencies (classify : PackageJsonLike → ModuleType)
    (rootPkg : Option PackageJsonLike) (walked : List PackageJsonLike)
    (fileSizes : List Nat) : Except String DependencyStats :=
  match rootPkg with
  | none => .error "Error analyzing dependencies"
  | some pkgJson =>
    .ok
      { totalDependencies :=
          pkgJson.dependencies.length + pkgJson.devDependencies.length
        directDependencies := pkgJson.dependencies.length
        devDependencies := pkgJson.devDependencies.length
        cjsDependencies :=
          (walked.foldl (onPackageStep classify) ⟨[], 0, 0⟩).cjsDependencies
        esmDependencies :=
          (walked.foldl (onPackageStep classify) ⟨[], 0, 0⟩).esmDependencies
        installSize := fileSizes.sum }

/-- `RemoteDependencyAnalyzer.analyzeDependencies`
(analyze-dependencies.ts 168-197): registry analysis unimplemented, so
the classified counts and install size are zero; the totals come from the
root manifest alone. -/
def remoteAnalyzeDependencies (rootPkg : Option PackageJsonLike) :
    Except String DependencyStats :=
  match rootPkg with
  | none => .error "root manifest read or parse failure"
  | some pkgJson =>
    .ok
      { totalDependencies :=
          pkgJson.dependencies.length + pkgJson.devDependencies.length
        directDependencies := pkgJson.dependencies.length
        devDependencies := pkgJson.devDependencies.length
        cjsDependencies := 0
        esmDependencies := 0
        installSize := 0 }

/-- `haystack.endsWith(needle)`. -/
def strEndsWith (s suffix : String) : Bool :=
  suffix.toList.isSuffixOf s.toList

/-- A file of an unpacked tarball: its name, the parse outcome of its
bytes (`none` = `JSON.parse` would throw), and its byte length. -/
structure PackFile where
  name : String
  pkg : Option PackageJsonLike
  byteLength : Nat

/-- The tarball-based `analyzeDependencies`
(analyze-dependencies.ts 200-270): find the root descriptor (throwing
when absent), sum byte lengths, count root direct/dev keys, and classify
each `node_modules` `package.json` once per package name.  The loop's
`JSON.parse` is not wrapped in try/catch, so an unparsable matching file
aborts the whole analysis. -/
def analyzeDependenciesTarball (classify : PackageJsonLike → ModuleType)
    (files : List PackFile) (rootDir : String) :
    Except String DependencyStats :=
  match files.find? (fun f => f.name = rootDir ++ "/package.json") with
  | none => .error "No package.json found in the tarball."
  | some pkgJsonFile =>
    match pkgJsonFile.pkg with
    | none => .error "JSON parse error"
    | some pkg =>
      match files.foldlM
          (fun (st : CountState) f =>
            if strEndsWith f.name "/package.json" &&
                strContains f.name "node_modules/" then
              match f.pkg with
              | none => Except.error "JSON parse error"
              | some depPkg =>
                Except.ok (onPackageStep classify st depPkg)
            else Except.ok st)
          (⟨[], 0, 0⟩ : CountState) with
      | .error e => .error e
      | .ok st =>
        .ok
          { totalDependencies :=
              pkg.dependencies.length + pkg.devDependencies.length
            directDependencies := pkg.dependencies.length
            devDependencies := pkg.devDependencies.length
            cjsDependencies := st.cjsDependencies
            esmDependencies := st.esmDependencies
            installSize := (files.map (·.byteLength)).sum }

/-- C9: a package classified `unknown` leaves both the CJS and the ESM
counters unchanged — the counting step (shared by the local walker's
`onPackage` callback and the tarball loop) increments neither. -/
theorem C9_unknown_counts_unchanged
    (classify : PackageJsonLike → ModuleType) (st : CountState)
    (pkg : PackageJsonLike) (hunknown : classify pkg = ModuleType.unknown) :
    (onPackageStep classify st pkg).cjsDependencies =
        st.cjsDependencies ∧
      (onPackageStep classify st pkg).esmDependencies =
        st.esmDependencies := by
  unfold onPackageStep
  by_cases hseen : pkg.name ∈ st.seenPackages
  · rw [if_pos hseen]
    exact ⟨rfl, rfl⟩
  · rw [if_neg hseen]
    simp [applyModuleType, hunknown]

/-- C9 witness: instantiates `C9_unknown_counts_unchanged` on a concrete
state and package with an all-unknown classifier. -/
theorem C9_witness :
    ((fun (_ : PackageJsonLike) => ModuleType.unknown)
        { name := "left-pad", version := "1.3.0" } = ModuleType.unknown) ∧
    ((onPackageStep (fun _ => ModuleType.unknown) ⟨["a"], 2, 3⟩
        { name := "left-pad", version := "1.3.0" }).cjsDependencies = 2 ∧
      (onPackageStep (fun _ => ModuleType.unknown) ⟨["a"], 2, 3⟩
        { name := "left-pad", version := "1.3.0" }).esmDependencies = 3) :=
  ⟨rfl, C9_unknown_counts_unchanged (fun _ => ModuleType.unknown)
    ⟨["a"], 2, 3⟩ { name := "left-pad", version := "1.3.0" } rfl⟩

/-- C10: every `DependencyStats` any of the three analyzers returns
satisfies `totalDependencies = directDependencies + devDependencies`,
where the summands are the key counts of the root manifest's
`dependencies` and `devDependencies` maps (transitive dependencies never
enter the total), and a name occurring in both maps is counted once in
each summand: the total equals the size of the union of the two key sets
plus the size of their intersection. -/
theorem C10_total_eq_direct_plus_dev :
    (∀ (classify : PackageJsonLike → ModuleType)
        (rootPkg : Option PackageJsonLike) (walked : List PackageJsonLike)
        (fileSizes : List Nat) (stats : DependencyStats),
      localAnalyzeDependencies classify rootPkg walked fileSizes =
          .ok stats →
      ∃ pkg, rootPkg = some pkg ∧
        stats.totalDependencies =
          stats.directDependencies + stats.devDependencies ∧
        stats.directDependencies = pkg.dependencies.length ∧
        stats.devDependencies = pkg.devDependencies.length) ∧
    (∀ (rootPkg : Option PackageJsonLike) (stats : DependencyStats),
      remoteAnalyzeDependencies rootPkg = .ok stats →
      ∃ pkg, rootPkg = some pkg ∧
        stats.totalDependencies =
          stats.directDependencies + stats.devDependencies ∧
        stats.directDependencies = pkg.dependencies.length ∧
        stats.devDependencies = pkg.devDependencies.length) ∧
    (∀ (classify : PackageJsonLike → ModuleType) (files : List PackFile)
        (rootDir : String) (stats : DependencyStats),
      analyzeDependenciesTarball classify files rootDir = .ok stats →
      ∃ f ∈ files, f.name = rootDir ++ "/package.json" ∧
        ∃ pkg, f.pkg = some pkg ∧
          stats.totalDependencies =
            stats.directDependencies + stats.devDependencies ∧
          stats.directDependencies = pkg.dependencies.length ∧
          stats.devDependencies = pkg.devDependencies.length) ∧
    (∀ pkg : PackageJsonLike,
      (pkg.dependencies.map Prod.fst).Nodup →
      (pkg.devDependencies.map Prod.fst).Nodup →
      pkg.dependencies.length + pkg.devDependencies.length =
        ((pkg.dependencies.map Prod.fst).toFinset ∪
          (pkg.devDependencies.map Prod.fst).toFinset).card +
        ((pkg.dependencies.map Prod.fst).toFinset ∩
          (pkg.devDependencies.map Prod.fst).toFinset).card) := by
  refine ⟨?_, ?_, ?_, ?_⟩
  · intro classify rootPkg walked fileSizes stats h
    cases rootPkg with
    | none =>
      rw [localAnalyzeDependencies] at h
      exact absurd h (by simp)
    | some pkg =>
      rw [localAnalyzeDependencies] at h
      injection h with h
      subst h
      exact ⟨pkg, rfl, rfl, rfl, rfl⟩
  · intro rootPkg stats h
    cases rootPkg with
    | none =>
      rw [remoteAnalyzeDependencies] at h
      exact absurd h (by simp)
    | some pkg =>
      rw [remoteAnalyzeDependencies] at h
      injection h with h
      subst h
      exact ⟨pkg, rfl, rfl, rfl, rfl⟩
  · intro classify files rootDir stats h
    unfold analyzeDependenciesTarball at h
    split at h
    · exact absurd h (by simp)
    · rename_i pkgJsonFile hfind
      split at h
      · exact absurd h (by simp)
      · rename_i pkg hpkg
        split at h
        · exact absurd h (by simp)
        · rename_i st hfold
          injection h with h
          subst h
          refine ⟨pkgJsonFile, List.mem_of_find?_eq_some hfind, ?_, pkg,
            hpkg, rfl, rfl, rfl⟩
          have := List.find?_some hfind
          simpa using this
  · intro pkg hnd hnv
    rw [Finset.card_union_add_card_inter]
    rw [List.toFinset_card_of_nodup hnd, List.toFinset_card_of_nodup hnv]
    simp

def c10pkg : PackageJsonLike :=
  { name := "demo", version := "1.0.0",
    dependencies := [("shared", "^1.0.0"), ("only-direct", "^2.0.0")],
    devDependencies := [("shared", "^1.0.0"), ("only-dev", "^3.0.0")] }

/-- C10 witness: instantiates the local-analyzer conjunct of
`C10_total_eq_direct_plus_dev` on a root manifest whose `shared` entry
appears in both maps (total 4 = 2 + 2, counted twice). -/
theorem C10_witness :
    localAnalyzeDependencies (fun _ => ModuleType.cjs) (some c10pkg) [] [] =
      .ok { totalDependencies := 4, directDependencies := 2,
            devDependencies := 2, cjsDependencies := 0,
            esmDependencies := 0, installSize := 0 } ∧
    (∃ pkg, some c10pkg = some pkg ∧
      (4 : Nat) = 2 + 2 ∧
      (2 : Nat) = pkg.dependencies.length ∧
      (2 : Nat) = pkg.devDependencies.length) := by
  constructor
  · rfl
  · have := C10_total_eq_direct_plus_dev.1 (fun _ => ModuleType.cjs)
      (some c10pkg) [] []
      { totalDependencies := 4, directDependencies := 2,
        devDependencies := 2, cjsDependencies := 0,
        esmDependencies := 0, installSize := 0 } rfl
    exact this

end Reporter
